import Mathlib

/-
Verification of the reconciliation policy of the Second-Brain-Sync script
(src/unnamed/part_000).  The script is a polling loop around one operation,
`sync()`, which shells out to git via `runGit` (a wrapper over execSync).

Shallow embedding: every git subprocess invocation is an interaction with an
oracle `Env : Nat -> Except Unit String` giving the result of the n-th
invocation of the cycle (`.ok stdout` for a zero exit, `.error ()` for a
nonzero exit, in which case execSync throws).  Each embedded function threads
the invocation counter and records a trace of observable events: the git
calls issued, the SyncLock transitions, and the console signals the
specification refers to.  Control flow (try/catch/finally, early returns)
is translated from the source; in particular a finally block runs even when
the matching catch block executes a return statement, as in JavaScript.
-/

namespace SecondBrainSync

/-- One git subprocess invocation site of the script: each constructor names
the `runGit` call with the corresponding argument string. -/
inductive GitCmd where
  | status
  | revParseUpstream
  | fetch
  | revParseHead
  | revParseAtU
  | stash
  | pullRebase
  | stashPop
  | addU
  | commit
  | push
deriving DecidableEq, Repr

/-- Observable events of one reconciliation cycle: git subprocess calls, the
SyncLock transitions, and the console signals that the specification names
(skip message, no-upstream warnings, error logs of each catch site). -/
inductive Ev where
  | call : GitCmd → Ev
  | acquire
  | release
  | skipLog
  | noUpstreamWarn
  | remoteNoUpstreamWarn
  | logLocalErr
  | logRemoteErr
  | logPullErr
  | logStashPopErr
  | logPushErr
  | logSyncErr
deriving DecidableEq, Repr

/-- The environment oracle: result of the n-th git subprocess invocation of a
run (`.ok` carries the stdout text; `.error ()` means execSync threw). -/
def Env : Type := Nat → Except Unit String

/-- The JavaScript `String.prototype.trim()`: strip whitespace from both ends.
Written by structural recursion on the character list so that it evaluates
inside the kernel. -/
def jsTrim (s : String) : String :=
  String.mk (((s.data.dropWhile Char.isWhitespace).reverse.dropWhile Char.isWhitespace).reverse)

/-- `hasLocalChanges()` (part_000 lines 16-27): runs `git status --porcelain`,
returns whether the trimmed output is nonempty; on a thrown error it logs
and returns false. -/
def hasLocalChanges (env : Env) (k : Nat) : Bool × Nat × List Ev :=
  match env k with
  | .ok s => (decide (0 < (jsTrim s).length), k + 1, [.call .status])
  | .error _ => (false, k + 1, [.call .status, .logLocalErr])

/-- `getUpstreamRef()` (part_000 lines 29-43): runs
`git rev-parse --abbrev-ref --symbolic-full-name @{u}`; returns the trimmed
output, mapped to none when it is empty (the JavaScript `|| null`) or when
the invocation threw (the silent catch). -/
def getUpstreamRef (env : Env) (k : Nat) : Option String × Nat × List Ev :=
  match env k with
  | .ok s => (if jsTrim s = "" then none else some (jsTrim s), k + 1, [.call .revParseUpstream])
  | .error _ => (none, k + 1, [.call .revParseUpstream])

/-- `hasRemoteChanges()` (part_000 lines 45-77): resolves the upstream (warn
and false if none), fetches, compares trimmed `rev-parse HEAD` with
`rev-parse @\x7bu\x7d`; the surrounding catch logs and returns false whenever one
of the three invocations throws. -/
def hasRemoteChanges (env : Env) (k : Nat) : Bool × Nat × List Ev :=
  match getUpstreamRef env k with
  | (none, k1, t1) => (false, k1, t1 ++ [.remoteNoUpstreamWarn])
  | (some _, k1, t1) =>
    match env k1 with
    | .error _ => (false, k1 + 1, t1 ++ [.call .fetch, .logRemoteErr])
    | .ok _ =>
      match env (k1 + 1) with
      | .error _ => (false, k1 + 2, t1 ++ [.call .fetch, .call .revParseHead, .logRemoteErr])
      | .ok lh =>
        match env (k1 + 2) with
        | .error _ => (false, k1 + 3,
            t1 ++ [.call .fetch, .call .revParseHead, .call .revParseAtU, .logRemoteErr])
        | .ok rh => (jsTrim lh != jsTrim rh, k1 + 3,
            t1 ++ [.call .fetch, .call .revParseHead, .call .revParseAtU])

/-- `syncFromOrigin()` (part_000 lines 79-113).  Stashes when
`hasLocalChanges()` was true (this `git stash` call sits outside any try, so
its failure propagates, the `.error` result).  Then
`try { pull --rebase } catch { log; return } finally { if hadLocal stash pop }`:
as in JavaScript, the finally block runs even on the catch branch that
returns, so when edits were stashed the `git stash pop` is attempted whether
or not the pull failed; a stash-pop failure is consumed by its inner catch. -/
def syncFromOrigin (env : Env) (k : Nat) : Except Unit Unit × Nat × List Ev :=
  match hasLocalChanges env k with
  | (hadLocal, k1, t1) =>
    if hadLocal then
      match env k1 with
      | .error _ => (.error (), k1 + 1, t1 ++ [.call .stash])
      | .ok _ =>
        match env (k1 + 1), env (k1 + 2) with
        | .ok _, .ok _ =>
            (.ok (), k1 + 3, t1 ++ [.call .stash, .call .pullRebase, .call .stashPop])
        | .ok _, .error _ =>
            (.ok (), k1 + 3,
              t1 ++ [.call .stash, .call .pullRebase, .call .stashPop, .logStashPopErr])
        | .error _, .ok _ =>
            (.ok (), k1 + 3,
              t1 ++ [.call .stash, .call .pullRebase, .logPullErr, .call .stashPop])
        | .error _, .error _ =>
            (.ok (), k1 + 3,
              t1 ++ [.call .stash, .call .pullRebase, .logPullErr, .call .stashPop,
                .logStashPopErr])
    else
      match env k1 with
      | .ok _ => (.ok (), k1 + 1, t1 ++ [.call .pullRebase])
      | .error _ => (.ok (), k1 + 1, t1 ++ [.call .pullRebase, .logPullErr])

/-- `syncToOrigin()` (part_000 lines 115-141): `git add -u` (outside any try,
failure propagates), re-check `hasLocalChanges()` and stop if clean, then
`git commit` (outside any try, failure propagates) and `git push` whose
failure is caught and logged. -/
def syncToOrigin (env : Env) (k : Nat) : Except Unit Unit × Nat × List Ev :=
  match env k with
  | .error _ => (.error (), k + 1, [.call .addU])
  | .ok _ =>
    match hasLocalChanges env (k + 1) with
    | (lc, k1, t1) =>
      if lc then
        match env k1 with
        | .error _ => (.error (), k1 + 1, .call .addU :: t1 ++ [.call .commit])
        | .ok _ =>
          match env (k1 + 1) with
          | .ok _ => (.ok (), k1 + 2, .call .addU :: t1 ++ [.call .commit, .call .push])
          | .error _ =>
              (.ok (), k1 + 2, .call .addU :: t1 ++ [.call .commit, .call .push, .logPushErr])
      else (.ok (), k1, .call .addU :: t1)

/-- The body of the try block of `sync()` (part_000 lines 151-171): resolve
the upstream (warn and stop when none), pull phase when
`hasRemoteChanges()`, then push phase when `hasLocalChanges()`.  The
`.error` result is an exception propagating out of the body, to be caught
by the catch of `sync()`. -/
def syncBody (env : Env) (k : Nat) : Except Unit Unit × Nat × List Ev :=
  match getUpstreamRef env k with
  | (none, k1, t1) => (.ok (), k1, t1 ++ [.noUpstreamWarn])
  | (some _, k1, t1) =>
    match hasRemoteChanges env k1 with
    | (rc, k2, t2) =>
      match (if rc then syncFromOrigin env k2 else (.ok (), k2, [])) with
      | (.error e, k3, t3) => (.error e, k3, t1 ++ (t2 ++ t3))
      | (.ok _, k3, t3) =>
        match hasLocalChanges env k3 with
        | (lc, k4, t4) =>
          if lc then
            match syncToOrigin env k4 with
            | (r, k5, t5) => (r, k5, t1 ++ (t2 ++ (t3 ++ (t4 ++ t5))))
          else (.ok (), k4, t1 ++ (t2 ++ (t3 ++ t4)))

/-- Result of one invocation of `sync()`: the value of the `isSyncing` flag
after the call returns, the event trace, and the exception escaping to the
caller, if any (`none` means `sync()` returned normally). -/
structure CycleResult where
  lock : Bool
  events : List Ev
  escaped : Option Unit
deriving DecidableEq, Repr

/-- `sync()` (part_000 lines 143-177): skip when `isSyncing` is already set;
otherwise set it, run the body, catch and log any exception, and clear the
flag in the finally block. -/
def sync (env : Env) (isSyncing : Bool) : CycleResult :=
  if isSyncing then
    { lock := isSyncing, events := [.skipLog], escaped := none }
  else
    match syncBody env 0 with
    | (.ok _, _, t) =>
        { lock := false, events := .acquire :: (t ++ [.release]), escaped := none }
    | (.error _, _, t) =>
        { lock := false, events := .acquire :: (t ++ [.logSyncErr, .release]), escaped := none }

/-- Pull-phase subprocess calls of the specification: fetch, shelve (stash),
pullRebase, unshelve (stash pop). -/
def pullCall : Ev → Bool
  | .call .fetch => true
  | .call .stash => true
  | .call .pullRebase => true
  | .call .stashPop => true
  | _ => false

/-- Push-phase subprocess calls of the specification: stage (add -u), commit,
push. -/
def pushCall : Ev → Bool
  | .call .addU => true
  | .call .commit => true
  | .call .push => true
  | _ => false

/-- Once a push-phase call has appeared in the trace, no pull-phase call may
follow it. -/
def noPullAfterPush : List Ev → Bool
  | [] => true
  | e :: rest =>
    (if pushCall e then rest.all (fun x => !pullCall x) else true) && noPullAfterPush rest

lemma noPullAfterPush_of_no_pull (l : List Ev) (h : ∀ e ∈ l, pullCall e = false) :
    noPullAfterPush l = true := by
  induction l with
  | nil => rfl
  | cons e rest ih =>
    have hrest : ∀ x ∈ rest, pullCall x = false := fun x hx => h x (List.mem_cons_of_mem _ hx)
    simp only [noPullAfterPush, Bool.and_eq_true]
    refine ⟨?_, ih hrest⟩
    split
    · rw [List.all_eq_true]
      intro x hx
      simp [hrest x hx]
    · rfl

lemma noPullAfterPush_append (l1 l2 : List Ev) (h1 : ∀ e ∈ l1, pushCall e = false)
    (h2 : ∀ e ∈ l2, pullCall e = false) : noPullAfterPush (l1 ++ l2) = true := by
  induction l1 with
  | nil => simpa using noPullAfterPush_of_no_pull l2 h2
  | cons e rest ih =>
    have hrest : ∀ x ∈ rest, pushCall x = false := fun x hx => h1 x (List.mem_cons_of_mem _ hx)
    simp only [List.cons_append, noPullAfterPush, Bool.and_eq_true]
    refine ⟨?_, ih hrest⟩
    rw [h1 e (List.mem_cons_self _ _)]
    rfl

/-- Every event that `hasLocalChanges` can emit. -/
lemma hasLocalChanges_events (env : Env) (k : Nat) (p : Ev → Prop)
    (hp : ∀ e ∈ [Ev.call .status, Ev.logLocalErr], p e) :
    ∀ e ∈ (hasLocalChanges env k).2.2, p e := by
  cases h : env k <;> simp_all [hasLocalChanges, h]

/-- Every event that `getUpstreamRef` can emit. -/
lemma getUpstreamRef_events (env : Env) (k : Nat) (p : Ev → Prop)
    (hp : ∀ e ∈ [Ev.call .revParseUpstream], p e) :
    ∀ e ∈ (getUpstreamRef env k).2.2, p e := by
  cases h : env k <;> simp_all [getUpstreamRef, h]

/-- The counter and trace components of `getUpstreamRef` do not depend on the
oracle answer. -/
lemma getUpstreamRef_shape (env : Env) (k : Nat) :
    getUpstreamRef env k =
      ((getUpstreamRef env k).1, k + 1, [Ev.call .revParseUpstream]) := by
  cases h : env k <;> simp [getUpstreamRef, h]

/-- Every event that `hasRemoteChanges` can emit. -/
lemma hasRemoteChanges_events (env : Env) (k : Nat) (p : Ev → Prop)
    (hp : ∀ e ∈ [Ev.call .revParseUpstream, Ev.remoteNoUpstreamWarn, Ev.call .fetch,
      Ev.call .revParseHead, Ev.call .revParseAtU, Ev.logRemoteErr], p e) :
    ∀ e ∈ (hasRemoteChanges env k).2.2, p e := by
  simp only [List.mem_cons, List.mem_singleton, forall_eq_or_imp, forall_eq,
    List.not_mem_nil] at hp
  obtain ⟨h1, h2, h3, h4, h5, h6⟩ := hp
  cases h0 : env k with
  | error u => simp_all [hasRemoteChanges, getUpstreamRef, h0]
  | ok s =>
    by_cases hs : jsTrim s = ""
    · simp_all [hasRemoteChanges, getUpstreamRef, h0, hs]
    · cases hA : env (k + 1) with
      | error u => simp_all [hasRemoteChanges, getUpstreamRef, h0, hs, hA]
      | ok sA =>
        cases hB : env (k + 2) with
        | error u => simp_all [hasRemoteChanges, getUpstreamRef, h0, hs, hA, hB]
        | ok sB =>
          cases hC : env (k + 3) with
          | error u => simp_all [hasRemoteChanges, getUpstreamRef, h0, hs, hA, hB, hC]
          | ok sC => simp_all [hasRemoteChanges, getUpstreamRef, h0, hs, hA, hB, hC]

/-- Every event that `syncFromOrigin` can emit. -/
lemma syncFromOrigin_events (env : Env) (k : Nat) (p : Ev → Prop)
    (hp : ∀ e ∈ [Ev.call .status, Ev.logLocalErr, Ev.call .stash, Ev.call .pullRebase,
      Ev.logPullErr, Ev.call .stashPop, Ev.logStashPopErr], p e) :
    ∀ e ∈ (syncFromOrigin env k).2.2, p e := by
  have ht1 : ∀ e ∈ (hasLocalChanges env k).2.2, p e := by
    refine hasLocalChanges_events env k p ?_
    intro e he
    refine hp e ?_
    simp only [List.mem_cons, List.mem_singleton] at he ⊢
    tauto
  simp only [List.mem_cons, List.mem_singleton, forall_eq_or_imp, forall_eq,
    List.not_mem_nil] at hp
  obtain ⟨h1, h2, h3, h4, h5, h6, h7⟩ := hp
  rcases hl : hasLocalChanges env k with ⟨b, k1, t1⟩
  rw [hl] at ht1
  cases b with
  | false =>
    cases hA : env k1 with
    | error u =>
      have htr : (syncFromOrigin env k).2.2 = t1 ++ [Ev.call .pullRebase, Ev.logPullErr] := by
        simp [syncFromOrigin, hl, hA]
      rw [htr]
      exact List.forall_mem_append.mpr ⟨ht1, by simp_all⟩
    | ok sA =>
      have htr : (syncFromOrigin env k).2.2 = t1 ++ [Ev.call .pullRebase] := by
        simp [syncFromOrigin, hl, hA]
      rw [htr]
      exact List.forall_mem_append.mpr ⟨ht1, by simp_all⟩
  | true =>
    cases hA : env k1 with
    | error u =>
      have htr : (syncFromOrigin env k).2.2 = t1 ++ [Ev.call .stash] := by
        simp [syncFromOrigin, hl, hA]
      rw [htr]
      exact List.forall_mem_append.mpr ⟨ht1, by simp_all⟩
    | ok sA =>
      cases hB : env (k1 + 1) with
      | ok sB =>
        cases hC : env (k1 + 2) with
        | ok sC =>
          have htr : (syncFromOrigin env k).2.2 =
              t1 ++ [Ev.call .stash, Ev.call .pullRebase, Ev.call .stashPop] := by
            simp [syncFromOrigin, hl, hA, hB, hC]
          rw [htr]
          exact List.forall_mem_append.mpr ⟨ht1, by simp_all⟩
        | error u =>
          have htr : (syncFromOrigin env k).2.2 =
              t1 ++ [Ev.call .stash, Ev.call .pullRebase, Ev.call .stashPop,
                Ev.logStashPopErr] := by
            simp [syncFromOrigin, hl, hA, hB, hC]
          rw [htr]
          exact List.forall_mem_append.mpr ⟨ht1, by simp_all⟩
      | error u =>
        cases hC : env (k1 + 2) with
        | ok sC =>
          have htr : (syncFromOrigin env k).2.2 =
              t1 ++ [Ev.call .stash, Ev.call .pullRebase, Ev.logPullErr,
                Ev.call .stashPop] := by
            simp [syncFromOrigin, hl, hA, hB, hC]
          rw [htr]
          exact List.forall_mem_append.mpr ⟨ht1, by simp_all⟩
        | error u =>
          have htr : (syncFromOrigin env k).2.2 =
              t1 ++ [Ev.call .stash, Ev.call .pullRebase, Ev.logPullErr,
                Ev.call .stashPop, Ev.logStashPopErr] := by
            simp [syncFromOrigin, hl, hA, hB, hC]
          rw [htr]
          exact List.forall_mem_append.mpr ⟨ht1, by simp_all⟩

/-- Every event that `syncToOrigin` can emit. -/
lemma syncToOrigin_events (env : Env) (k : Nat) (p : Ev → Prop)
    (hp : ∀ e ∈ [Ev.call .addU, Ev.call .status, Ev.logLocalErr, Ev.call .commit,
      Ev.call .push, Ev.logPushErr], p e) :
    ∀ e ∈ (syncToOrigin env k).2.2, p e := by
  have ht1 : ∀ e ∈ (hasLocalChanges env (k + 1)).2.2, p e := by
    refine hasLocalChanges_events env (k + 1) p ?_
    intro e he
    refine hp e ?_
    simp only [List.mem_cons, List.mem_singleton] at he ⊢
    tauto
  simp only [List.mem_cons, List.mem_singleton, forall_eq_or_imp, forall_eq,
    List.not_mem_nil] at hp
  obtain ⟨h1, h2, h3, h4, h5, h6⟩ := hp
  cases h0 : env k with
  | error u => simp_all [syncToOrigin, h0]
  | ok s =>
    rcases hl : hasLocalChanges env (k + 1) with ⟨b, k1, t1⟩
    rw [hl] at ht1
    cases b with
    | false =>
      have htr : (syncToOrigin env k).2.2 = Ev.call .addU :: t1 := by
        simp [syncToOrigin, h0, hl]
      rw [htr]
      intro e he
      rcases List.mem_cons.mp he with rfl | he
      · exact h1
      · exact ht1 e he
    | true =>
      cases hA : env k1 with
      | error u =>
        have htr : (syncToOrigin env k).2.2 =
            Ev.call .addU :: (t1 ++ [Ev.call .commit]) := by
          simp [syncToOrigin, h0, hl, hA]
        rw [htr]
        intro e he
        rcases List.mem_cons.mp he with rfl | he
        · exact h1
        · exact List.forall_mem_append.mpr ⟨ht1, by simp_all⟩ e he
      | ok sA =>
        cases hB : env (k1 + 1) with
        | ok sB =>
          have htr : (syncToOrigin env k).2.2 =
              Ev.call .addU :: (t1 ++ [Ev.call .commit, Ev.call .push]) := by
            simp [syncToOrigin, h0, hl, hA, hB]
          rw [htr]
          intro e he
          rcases List.mem_cons.mp he with rfl | he
          · exact h1
          · exact List.forall_mem_append.mpr ⟨ht1, by simp_all⟩ e he
        | error u =>
          have htr : (syncToOrigin env k).2.2 =
              Ev.call .addU :: (t1 ++ [Ev.call .commit, Ev.call .push, Ev.logPushErr]) := by
            simp [syncToOrigin, h0, hl, hA, hB]
          rw [htr]
          intro e he
          rcases List.mem_cons.mp he with rfl | he
          · exact h1
          · exact List.forall_mem_append.mpr ⟨ht1, by simp_all⟩ e he

/-- Pull-side events: everything `syncBody` can emit before the push phase
starts (upstream resolution, remote-divergence query, `syncFromOrigin`, and
the local-changes check of the push guard). -/
def pullSideEvs : List Ev :=
  [Ev.call .revParseUpstream, Ev.noUpstreamWarn, Ev.remoteNoUpstreamWarn, Ev.call .fetch,
    Ev.call .revParseHead, Ev.call .revParseAtU, Ev.logRemoteErr, Ev.call .status,
    Ev.logLocalErr, Ev.call .stash, Ev.call .pullRebase, Ev.logPullErr, Ev.call .stashPop,
    Ev.logStashPopErr]

/-- Push-side events: everything `syncToOrigin` can emit. -/
def pushSideEvs : List Ev :=
  [Ev.call .addU, Ev.call .status, Ev.logLocalErr, Ev.call .commit, Ev.call .push,
    Ev.logPushErr]

/-- The trace of the body of `sync()` splits into a pull-side part followed by
a push-side part: every event of the first part is one of `pullSideEvs`,
every event of the second part one of `pushSideEvs`. -/
lemma syncBody_split (env : Env) (k : Nat) (p q : Ev → Prop)
    (hp : ∀ e ∈ pullSideEvs, p e) (hq : ∀ e ∈ pushSideEvs, q e) :
    ∃ a b, (syncBody env k).2.2 = a ++ b ∧ (∀ e ∈ a, p e) ∧ (∀ e ∈ b, q e) := by
  simp only [pullSideEvs, List.mem_cons, List.mem_singleton, forall_eq_or_imp, forall_eq,
    List.not_mem_nil] at hp
  obtain ⟨p1, p2, p3, p4, p5, p6, p7, p8, p9, p10, p11, p12, p13, p14⟩ := hp
  rcases hu : getUpstreamRef env k with ⟨u, k1, t1⟩
  have ht1 : ∀ e ∈ t1, p e := by
    have := getUpstreamRef_events env k p (by simp_all)
    rw [hu] at this
    exact this
  cases u with
  | none =>
    refine ⟨t1 ++ [Ev.noUpstreamWarn], [], ?_, ?_, ?_⟩
    · simp [syncBody, hu]
    · exact List.forall_mem_append.mpr ⟨ht1, by simp_all⟩
    · simp
  | some up =>
    rcases hr : hasRemoteChanges env k1 with ⟨rc, k2, t2⟩
    have ht2 : ∀ e ∈ t2, p e := by
      have := hasRemoteChanges_events env k1 p (by simp_all)
      rw [hr] at this
      exact this
    rcases hs : (if rc then syncFromOrigin env k2
        else ((Except.ok ()), k2, ([] : List Ev))) with ⟨r3, k3, t3⟩
    have ht3 : ∀ e ∈ t3, p e := by
      cases rc with
      | false =>
        simp only [if_neg Bool.false_ne_true, Prod.mk.injEq] at hs
        rw [← hs.2.2]
        simp
      | true =>
        simp only [if_pos] at hs
        have := syncFromOrigin_events env k2 p (by simp_all)
        rw [hs] at this
        exact this
    cases r3 with
    | error u3 =>
      refine ⟨t1 ++ (t2 ++ t3), [], ?_, ?_, ?_⟩
      · simp [syncBody, hu, hr, hs]
      · exact List.forall_mem_append.mpr
          ⟨ht1, List.forall_mem_append.mpr ⟨ht2, ht3⟩⟩
      · simp
    | ok u3 =>
      rcases hl : hasLocalChanges env k3 with ⟨lc, k4, t4⟩
      have ht4 : ∀ e ∈ t4, p e := by
        have := hasLocalChanges_events env k3 p (by simp_all)
        rw [hl] at this
        exact this
      cases lc with
      | false =>
        refine ⟨t1 ++ (t2 ++ (t3 ++ t4)), [], ?_, ?_, ?_⟩
        · simp [syncBody, hu, hr, hs, hl]
        · exact List.forall_mem_append.mpr ⟨ht1, List.forall_mem_append.mpr
            ⟨ht2, List.forall_mem_append.mpr ⟨ht3, ht4⟩⟩⟩
        · simp
      | true =>
        rcases ho : syncToOrigin env k4 with ⟨r5, k5, t5⟩
        have ht5 : ∀ e ∈ t5, q e := by
          have := syncToOrigin_events env k4 q (by simp_all [pushSideEvs])
          rw [ho] at this
          exact this
        refine ⟨t1 ++ (t2 ++ (t3 ++ t4)), t5, ?_, ?_, ?_⟩
        · simp [syncBody, hu, hr, hs, hl, ho, List.append_assoc]
        · exact List.forall_mem_append.mpr ⟨ht1, List.forall_mem_append.mpr
            ⟨ht2, List.forall_mem_append.mpr ⟨ht3, ht4⟩⟩⟩
        · exact ht5

/-- Every event that the body of `sync()` can emit. -/
lemma syncBody_events (env : Env) (k : Nat) (p : Ev → Prop)
    (hp : ∀ e ∈ pullSideEvs, p e) (hq : ∀ e ∈ pushSideEvs, p e) :
    ∀ e ∈ (syncBody env k).2.2, p e := by
  obtain ⟨a, b, htr, ha, hb⟩ := syncBody_split env k p p hp hq
  rw [htr]
  exact List.forall_mem_append.mpr ⟨ha, hb⟩

/-- Oracle on which every git invocation fails (execSync throws each time). -/
def envAllErr : Env := fun _ => .error ()

/-- Oracle on which every git invocation succeeds with empty output: a clean
working tree. -/
def envAllOkClean : Env := fun _ => .ok ""

/-- Oracle of a cycle in which the upstream is configured, the remote does
not diverge, the working tree is dirty, and then `git add -u` throws: the
body of `sync()` raises. -/
def envAddUFails : Env := fun n =>
  match n with
  | 0 => .ok "origin/main"
  | 1 => .ok "origin/main"
  | 2 => .ok ""
  | 3 => .ok "abc123"
  | 4 => .ok "abc123"
  | 5 => .ok "M notes.md"
  | 6 => .error ()
  | _ => .ok ""

/-- Oracle of a pull with local edits and a failing rebase: `git status` shows
a dirty tree, `git stash` succeeds, `git pull --rebase` throws, `git stash pop`
succeeds. -/
def envPullConflict : Env := fun n =>
  match n with
  | 0 => .ok "M notes.md"
  | 2 => .error ()
  | _ => .ok ""

/-- Oracle of a full cycle in which the remote diverges, the tree is clean at
pull entry, `git pull --rebase` throws (invocation 6), and the tree is dirty
afterwards so the push phase runs to completion. -/
def envPullFailThenPush : Env := fun n =>
  match n with
  | 0 => .ok "origin/main"
  | 1 => .ok "origin/main"
  | 2 => .ok ""
  | 3 => .ok "aaa111"
  | 4 => .ok "bbb222"
  | 5 => .ok ""
  | 6 => .error ()
  | 7 => .ok "UU notes.md"
  | 8 => .ok ""
  | 9 => .ok "UU notes.md"
  | _ => .ok ""

/-- Claim C1: whatever the outcome of a cycle of `sync()` — normal
completion, no-upstream early return, pull failure, push failure, or a
thrown error inside the body — the `isSyncing` flag is false after `sync()`
returns, and the release of the SyncLock happens exactly once per cycle. -/
theorem sync_lock_released_once (env : Env) :
    (sync env false).lock = false ∧ (sync env false).events.count Ev.release = 1 := by
  rcases hB : syncBody env 0 with ⟨r, k, t⟩
  have hrel : Ev.release ∉ t := by
    have := syncBody_events env 0 (fun e => e ≠ Ev.release) (by decide) (by decide)
    rw [hB] at this
    intro hmem
    exact this _ hmem rfl
  have hcount : t.count Ev.release = 0 := List.count_eq_zero.mpr hrel
  cases r with
  | ok u =>
    refine ⟨by simp [sync, hB], ?_⟩
    simp [sync, hB, List.count_cons, List.count_append, hcount]
  | error u =>
    refine ⟨by simp [sync, hB], ?_⟩
    simp [sync, hB, List.count_cons, List.count_append, hcount]

/-- Claim C5: a call of `sync()` that finds the `isSyncing` flag already set
returns immediately with only the skip message, touching neither the flag
nor git: zero VersionControlClient calls.  Under the cooperative
single-flow scheduling of the script this makes at most one cycle execute
at a time. -/
theorem sync_skips_when_locked (env : Env) :
    sync env true = { lock := true, events := [Ev.skipLog], escaped := none } := rfl

/-- Claim C6: no exception escapes `sync()`: for every oracle, both the skip
path and a full cycle return normally, and when the body of the cycle
raises (a failure of an unguarded git invocation) the catch of `sync()`
logs it before the function returns. -/
theorem sync_no_exception_escape (env : Env) :
    (sync env true).escaped = none ∧ (sync env false).escaped = none ∧
      ((syncBody env 0).1 = .error () → Ev.logSyncErr ∈ (sync env false).events) := by
  refine ⟨rfl, ?_, ?_⟩
  · rcases hB : syncBody env 0 with ⟨r, k, t⟩
    cases r <;> simp [sync, hB]
  · intro h
    rcases hB : syncBody env 0 with ⟨r, k, t⟩
    rw [hB] at h
    cases r with
    | ok u => simp at h
    | error u => simp [sync, hB]

/-- Witness for C6 at a concrete oracle: `git add -u` throws inside the push
phase, the body raises, and the cycle logs the error. -/
theorem sync_no_exception_escape_witness :
    (syncBody envAddUFails 0).1 = .error () ∧
      Ev.logSyncErr ∈ (sync envAddUFails false).events :=
  ⟨rfl, (sync_no_exception_escape envAddUFails).2.2 rfl⟩

/-- Claim C8: a cycle that finds no upstream configured emits the warning and
terminates with the lock released, having made no VersionControlClient call
other than the upstream query itself. -/
theorem no_upstream_cycle (env : Env) (h : (getUpstreamRef env 0).1 = none) :
    sync env false =
      { lock := false,
        events := [Ev.acquire, Ev.call .revParseUpstream, Ev.noUpstreamWarn, Ev.release],
        escaped := none } := by
  have hu : getUpstreamRef env 0 = (none, 1, [Ev.call .revParseUpstream]) := by
    have hsh := getUpstreamRef_shape env 0
    rw [h] at hsh
    simpa using hsh
  simp [sync, syncBody, hu]

/-- Witness for C8 at a concrete oracle: the upstream rev-parse throws, the
cycle only warns. -/
theorem no_upstream_cycle_witness :
    (getUpstreamRef envAllErr 0).1 = none ∧
      sync envAllErr false =
        { lock := false,
          events := [Ev.acquire, Ev.call .revParseUpstream, Ev.noUpstreamWarn, Ev.release],
          escaped := none } :=
  ⟨by decide, no_upstream_cycle envAllErr (by decide)⟩

/-- Claim C4: when the `hasLocalChanges()` re-check that `syncToOrigin`
performs after `git add -u` reports a clean tree (nothing ended up staged),
`commit` is not invoked and the sub-procedure stops as a no-op. -/
theorem no_empty_commit (env : Env) (k : Nat)
    (h : (hasLocalChanges env (k + 1)).1 = false) :
    Ev.call .commit ∉ (syncToOrigin env k).2.2 := by
  cases h0 : env k with
  | error u => simp [syncToOrigin, h0]
  | ok s =>
    rcases hl : hasLocalChanges env (k + 1) with ⟨b, k1, t1⟩
    rw [hl] at h
    subst h
    have ht1 : ∀ e ∈ t1, e = Ev.call .status ∨ e = Ev.logLocalErr := by
      have := hasLocalChanges_events env (k + 1)
        (fun e => e = Ev.call .status ∨ e = Ev.logLocalErr) (by simp)
      rw [hl] at this
      exact this
    have htr : (syncToOrigin env k).2.2 = Ev.call .addU :: t1 := by
      simp [syncToOrigin, h0, hl]
    rw [htr]
    intro hm
    rcases List.mem_cons.mp hm with h2 | h2
    · simp at h2
    · rcases ht1 _ h2 with h3 | h3 <;> simp at h3

/-- Witness for C4 at a concrete oracle: `git add -u` succeeds and the
re-check reports a clean tree, so no commit call appears in the trace. -/
theorem no_empty_commit_witness :
    (hasLocalChanges envAllOkClean 1).1 = false ∧
      Ev.call .commit ∉ (syncToOrigin envAllOkClean 0).2.2 :=
  ⟨by decide, no_empty_commit envAllOkClean 0 (by decide)⟩

/-- Claim C7: when `hasLocalChanges()` reports a clean tree at the entry of
`syncFromOrigin`, neither `git stash` nor `git stash pop` is invoked during
that pull. -/
theorem no_spurious_shelve (env : Env) (k : Nat)
    (h : (hasLocalChanges env k).1 = false) :
    Ev.call .stash ∉ (syncFromOrigin env k).2.2 ∧
      Ev.call .stashPop ∉ (syncFromOrigin env k).2.2 := by
  rcases hl : hasLocalChanges env k with ⟨b, k1, t1⟩
  rw [hl] at h
  subst h
  have ht1 : ∀ e ∈ t1, e = Ev.call .status ∨ e = Ev.logLocalErr := by
    have := hasLocalChanges_events env k
      (fun e => e = Ev.call .status ∨ e = Ev.logLocalErr) (by simp)
    rw [hl] at this
    exact this
  have hsub : ∀ e ∈ (syncFromOrigin env k).2.2,
      e = Ev.call .status ∨ e = Ev.logLocalErr ∨ e = Ev.call .pullRebase ∨
        e = Ev.logPullErr := by
    cases hA : env k1 with
    | ok s =>
      have htr : (syncFromOrigin env k).2.2 = t1 ++ [Ev.call .pullRebase] := by
        simp [syncFromOrigin, hl, hA]
      rw [htr]
      intro e he
      rcases List.mem_append.mp he with he | he
      · rcases ht1 _ he with h2 | h2 <;> simp [h2]
      · simp at he
        simp [he]
    | error u =>
      have htr : (syncFromOrigin env k).2.2 =
          t1 ++ [Ev.call .pullRebase, Ev.logPullErr] := by
        simp [syncFromOrigin, hl, hA]
      rw [htr]
      intro e he
      rcases List.mem_append.mp he with he | he
      · rcases ht1 _ he with h2 | h2 <;> simp [h2]
      · simp at he
        rcases he with h2 | h2 <;> simp [h2]
  constructor <;> intro hm <;> rcases hsub _ hm with h2 | h2 | h2 | h2 <;> simp at h2

/-- Witness for C7 at a concrete oracle: clean tree at pull entry, the pull
runs without any shelve or unshelve call. -/
theorem no_spurious_shelve_witness :
    (hasLocalChanges envAllOkClean 0).1 = false ∧
      Ev.call .stash ∉ (syncFromOrigin envAllOkClean 0).2.2 ∧
      Ev.call .stashPop ∉ (syncFromOrigin envAllOkClean 0).2.2 :=
  ⟨by decide, (no_spurious_shelve envAllOkClean 0 (by decide)).1,
    (no_spurious_shelve envAllOkClean 0 (by decide)).2⟩

/-- Claim C9: within a single cycle every pull-phase VersionControlClient
call (fetch, stash, pull rebase, stash pop) is issued strictly before any
push-phase call (add -u, commit, push): once a push-phase call appears in
the trace of `sync()`, no pull-phase call follows it.  This holds for every
oracle, in particular for cycles with both remote divergence and local
changes. -/
theorem pull_before_push (env : Env) (st : Bool) :
    noPullAfterPush (sync env st).events = true := by
  cases st with
  | true => rfl
  | false =>
    obtain ⟨a, b, htr, ha, hb⟩ := syncBody_split env 0 (fun e => pushCall e = false)
      (fun e => pullCall e = false) (by decide) (by decide)
    rcases hB : syncBody env 0 with ⟨r, k, t⟩
    rw [hB] at htr
    have ht : t = a ++ b := by simpa using htr
    cases r with
    | ok u =>
      have hev : (sync env false).events = (Ev.acquire :: a) ++ (b ++ [Ev.release]) := by
        simp [sync, hB, ht]
      rw [hev]
      refine noPullAfterPush_append _ _ ?_ ?_
      · intro e he
        rcases List.mem_cons.mp he with rfl | he
        · rfl
        · exact ha e he
      · intro e he
        rcases List.mem_append.mp he with he | he
        · exact hb e he
        · simp at he
          subst he
          rfl
    | error u =>
      have hev : (sync env false).events =
          (Ev.acquire :: a) ++ (b ++ [Ev.logSyncErr, Ev.release]) := by
        simp [sync, hB, ht]
      rw [hev]
      refine noPullAfterPush_append _ _ ?_ ?_
      · intro e he
        rcases List.mem_cons.mp he with rfl | he
        · rfl
        · exact ha e he
      · intro e he
        rcases List.mem_append.mp he with he | he
        · exact hb e he
        · simp at he
          rcases he with rfl | rfl <;> rfl

/-- Claim C10: the two query functions are total Booleans and report false
whenever the underlying git invocation fails: a failing
`git status --porcelain` makes `hasLocalChanges` return false, and a failure
of any of the invocations of `hasRemoteChanges` (upstream resolution, fetch,
either rev-parse) makes it return false. -/
theorem query_failure_reports_false (env : Env) (k : Nat) :
    (env k = .error () → (hasLocalChanges env k).1 = false) ∧
      ((env k = .error () ∨ env (k + 1) = .error () ∨ env (k + 2) = .error () ∨
          env (k + 3) = .error ()) →
        (hasRemoteChanges env k).1 = false) := by
  constructor
  · intro h
    simp [hasLocalChanges, h]
  · intro h
    cases h0 : env k with
    | error u => simp [hasRemoteChanges, getUpstreamRef, h0]
    | ok s =>
      by_cases hs : jsTrim s = ""
      · simp [hasRemoteChanges, getUpstreamRef, h0, hs]
      · cases hA : env (k + 1) with
        | error u => simp [hasRemoteChanges, getUpstreamRef, h0, hs, hA]
        | ok sA =>
          cases hB : env (k + 2) with
          | error u => simp [hasRemoteChanges, getUpstreamRef, h0, hs, hA, hB]
          | ok sB =>
            cases hC : env (k + 3) with
            | error u => simp [hasRemoteChanges, getUpstreamRef, h0, hs, hA, hB, hC]
            | ok sC => simp_all

/-- Witness for C10 at a concrete oracle: every invocation throws, both
queries report false. -/
theorem query_failure_reports_false_witness :
    envAllErr 0 = .error () ∧ (hasLocalChanges envAllErr 0).1 = false ∧
      (hasRemoteChanges envAllErr 0).1 = false :=
  ⟨rfl, (query_failure_reports_false envAllErr 0).1 rfl,
    (query_failure_reports_false envAllErr 0).2 (Or.inl rfl)⟩

/-- Claim C3 fails on the code: with local edits stashed and a failing
`git pull --rebase`, the finally block of `syncFromOrigin` still runs
`git stash pop` (a JavaScript finally executes even after a return inside
the catch), contradicting the adjacent source comment that says not to.
At this oracle the trace shows the stash pop right after the logged pull
failure. -/
theorem stash_pop_after_failed_pull :
    (hasLocalChanges envPullConflict 0).1 = true ∧
      envPullConflict 2 = .error () ∧
      (syncFromOrigin envPullConflict 0).2.2 =
        [Ev.call .status, Ev.call .stash, Ev.call .pullRebase, Ev.logPullErr,
          Ev.call .stashPop] :=
  ⟨by decide, rfl, by decide⟩

/-- Claim C2 fails on the code: `syncFromOrigin` swallows the pull failure
and returns normally, so `sync()` goes on to its `hasLocalChanges()` check
and enters the push phase.  At this oracle `git pull --rebase` (invocation
6) throws, yet the cycle trace contains the staged add, the commit and the
push. -/
theorem push_phase_after_failed_pull :
    envPullFailThenPush 6 = .error () ∧
      Ev.logPullErr ∈ (sync envPullFailThenPush false).events ∧
      Ev.call .addU ∈ (sync envPullFailThenPush false).events ∧
      Ev.call .commit ∈ (sync envPullFailThenPush false).events ∧
      Ev.call .push ∈ (sync envPullFailThenPush false).events :=
  ⟨rfl, by decide, by decide, by decide, by decide⟩

end SecondBrainSync
